import Mathlib

/-!
# Verification of the Git SCM view contribution

A shallow embedding, in Lean 4, of the SCM state-derivation logic of
`src/packages/git/src/browser/git-view-contribution.ts`: the change
classifier, the resource-group builder, the diff-URI resolver, the group-id
allocator, the provider event hub (`ScmProviderImpl`), the repository set
tracker and the amend-commit error handling.  Pure functions of the source
become Lean functions; the mutable instance fields (`stagedChanges`,
`mergeChanges`, `SCM_GROUP_ID`, `dirtyRepositories`, the provider's
`_groups` and its emitters) become explicit state threaded through the
operations.  Asynchronous icon resolution (`Promise`, rejected promises)
becomes the `Except` monad; external collaborators (the label provider's
`getIcon`, the status letter abbreviation, the locale comparison) become
function parameters.
-/

namespace TheiaGit

/-- Modelled from the spec (§3): the git file-status enum.  Its declaration
(`GitFileStatus` in `@theia/git/src/common`) is not part of the excerpt; the
spec lists the members New, Modified, Deleted, Renamed, Copied, Conflicted. -/
inductive GitFileStatus where
  | New
  | Copied
  | Modified
  | Renamed
  | Deleted
  | Conflicted
deriving DecidableEq

/-- Modelled from the spec (§4.1): the TypeScript reverse enum mapping
`GitFileStatus[s]`, which yields the (pairwise distinct) member name.  The
classifier compares these names instead of the numeric values. -/
def GitFileStatus.name : GitFileStatus → String
  | .New => "New"
  | .Copied => "Copied"
  | .Modified => "Modified"
  | .Renamed => "Renamed"
  | .Deleted => "Deleted"
  | .Conflicted => "Conflicted"

/-- `FileChange` of the spec (§3) / `GitFileChange` of the source: an
immutable snapshot value `{uri, status, staged}`. -/
structure GitFileChange where
  uri : String
  status : GitFileStatus
  staged : Bool
deriving DecidableEq

/-- `WorkingDirectoryStatus` (§3): branch and head metadata plus the flat
change list.  `branch` and `currentHead` are optional strings. -/
structure WorkingDirectoryStatus where
  branch : Option String := none
  currentHead : Option String := none
  changes : List GitFileChange
deriving DecidableEq

/-- `GitViewContribution.hasConflicts` (git-view-contribution.ts:650-652):
some change has `Conflicted` status. -/
def hasConflicts (changes : List GitFileChange) : Bool :=
  changes.any fun c => c.status == GitFileStatus.Conflicted

/-- `GitViewContribution.allStaged` (git-view-contribution.ts:654-656):
no change is unstaged. -/
def allStaged (changes : List GitFileChange) : Bool :=
  !(changes.any fun c => !c.staged)

/-- The dirty marker appended to the branch name in the status-bar checkout
command, translated from the `onGitEvent` handler
(git-view-contribution.ts:244-257): `dirty` starts as `''` and is only
assigned inside the `length > 0` guard. -/
def statusDirty (changes : List GitFileChange) : String :=
  if changes.length > 0 then
    if hasConflicts changes || allStaged changes then
      if hasConflicts changes then "!"
      else if allStaged changes then "+"
      else ""
    else "*"
  else ""

/-- The branch text of the checkout status-bar command
(git-view-contribution.ts:243): `status.branch ? status.branch :
status.currentHead ? status.currentHead.substring(0, 8) : 'NO-HEAD'`.
JavaScript truthiness makes an empty string fall through. -/
def branchLabel (status : WorkingDirectoryStatus) : String :=
  match status.branch with
  | some b => if b ≠ "" then b else headLabel status.currentHead
  | none => headLabel status.currentHead
where
  headLabel : Option String → String
    | some h => if h ≠ "" then h.take 8 else "NO-HEAD"
    | none => "NO-HEAD"

/-- The change classifier inlined in `GitViewContribution.getGroups`
(git-view-contribution.ts:286-298): one pass over the change list, pushing
each change into the staged, unstaged or merge bucket.  The source guard is
the enum-name comparison
`GitFileStatus[GitFileStatus.Conflicted.valueOf()] !== GitFileStatus[change.status]`. -/
def classifyChanges : List GitFileChange → List GitFileChange × List GitFileChange × List GitFileChange
  | [] => ([], [], [])
  | change :: rest =>
    let (stagedChanges, unstagedChanges, mergeChanges) := classifyChanges rest
    if GitFileStatus.name .Conflicted ≠ GitFileStatus.name change.status then
      if change.staged then (change :: stagedChanges, unstagedChanges, mergeChanges)
      else (stagedChanges, change :: unstagedChanges, mergeChanges)
    else
      if !change.staged then (stagedChanges, unstagedChanges, change :: mergeChanges)
      else (stagedChanges, unstagedChanges, mergeChanges)

/-- Modelled from the spec (§4.4, glossary): a content URI.  The
`@theia/core` URI class is not part of the excerpt; the code only ever
constructs `new URI(change.uri)` and rewrites its scheme and query, so a
URI is modelled as the raw string it was parsed from together with the
scheme and query overrides applied to it. -/
structure Uri where
  raw : String
  scheme : Option String := none
  query : Option String := none
deriving DecidableEq

/-- `new URI(s)`. -/
def Uri.ofString (s : String) : Uri := { raw := s }

/-- `uri.withScheme(s)`. -/
def Uri.withScheme (u : Uri) (s : String) : Uri := { u with scheme := some s }

/-- `uri.withQuery(q)`. -/
def Uri.withQuery (u : Uri) (q : String) : Uri := { u with query := some q }

/-- Modelled from the spec (§4.2): `uri.displayName`, the last path segment
of the URI. -/
def Uri.displayName (u : Uri) : String :=
  ⟨(u.raw.data.reverse.takeWhile (· ≠ '/')).reverse⟩

/-- Modelled from the spec (§4.4): the repository-content scheme constant
`GIT_RESOURCE_SCHEME` (declared in `git-resource.ts`, outside the excerpt).
Its concrete spelling is immaterial to every claim. -/
def GIT_RESOURCE_SCHEME : String := "gitrev"

/-- Modelled from the spec (glossary): a diff URI is "a pair of content
locators (or a single URI)".  `DiffUris.encode` (outside the excerpt) packs
two content URIs and a label into one opened URI; it is modelled as the
`diff` constructor. -/
inductive OpenUri where
  | single (uri : Uri)
  | diff (left right : Uri) (label : String)
deriving DecidableEq

/-- `GitViewContribution.getUriToOpen` (git-view-contribution.ts:342-375),
translated branch for branch.  The instance fields `this.stagedChanges` and
`this.mergeChanges` (the caches recorded by the previous `getGroups` run)
are passed explicitly. -/
def getUriToOpen (stagedChanges mergeChanges : List GitFileChange)
    (change : GitFileChange) : OpenUri :=
  let changeUri : Uri := Uri.ofString change.uri
  if change.status ≠ GitFileStatus.New then
    if change.staged then
      .diff ((changeUri.withScheme GIT_RESOURCE_SCHEME).withQuery "HEAD")
        (changeUri.withScheme GIT_RESOURCE_SCHEME)
        (changeUri.displayName ++ " (Index)")
    else if (stagedChanges.find? fun c => c.uri == change.uri).isSome then
      .diff (changeUri.withScheme GIT_RESOURCE_SCHEME) changeUri
        (changeUri.displayName ++ " (Working tree)")
    else if (mergeChanges.find? fun c => c.uri == change.uri).isSome then
      .single changeUri
    else
      .diff ((changeUri.withScheme GIT_RESOURCE_SCHEME).withQuery "HEAD") changeUri
        (changeUri.displayName ++ " (Working tree)")
  else if change.staged then
    .single (changeUri.withScheme GIT_RESOURCE_SCHEME)
  else if (stagedChanges.find? fun c => c.uri == change.uri).isSome then
    .diff (changeUri.withScheme GIT_RESOURCE_SCHEME) changeUri
      (changeUri.displayName ++ " (Working tree)")
  else
    .single changeUri

/-- The spec's seven-case decision table (§4.4), written independently of
the source, in the spec's priority order 1-7, over
(status, staged, membership in the cached staged set, membership in the
cached merge set). -/
def uriDecisionTable (stagedSet mergeSet : List GitFileChange)
    (change : GitFileChange) : OpenUri :=
  let changeUri : Uri := Uri.ofString change.uri
  let isNew : Bool := change.status == GitFileStatus.New
  let inStaged : Bool := stagedSet.any fun c => c.uri == change.uri
  let inMerge : Bool := mergeSet.any fun c => c.uri == change.uri
  if isNew && !change.staged && !inStaged then
    .single changeUri
  else if isNew && change.staged then
    .single (changeUri.withScheme GIT_RESOURCE_SCHEME)
  else if isNew && !change.staged && inStaged then
    .diff (changeUri.withScheme GIT_RESOURCE_SCHEME) changeUri
      (changeUri.displayName ++ " (Working tree)")
  else if !isNew && change.staged then
    .diff ((changeUri.withScheme GIT_RESOURCE_SCHEME).withQuery "HEAD")
      (changeUri.withScheme GIT_RESOURCE_SCHEME)
      (changeUri.displayName ++ " (Index)")
  else if !isNew && !change.staged && inStaged then
    .diff (changeUri.withScheme GIT_RESOURCE_SCHEME) changeUri
      (changeUri.displayName ++ " (Working tree)")
  else if !isNew && !change.staged && inMerge then
    .single changeUri
  else
    .diff ((changeUri.withScheme GIT_RESOURCE_SCHEME).withQuery "HEAD") changeUri
      (changeUri.displayName ++ " (Working tree)")

/-- Fuel-driven decimal digit expansion of a natural number, least
significant digit last (the fuel makes the recursion structural, so
concrete values reduce in the kernel). -/
def natDigitsAux : Nat → Nat → List Char
  | 0, _ => []
  | fuel + 1, n =>
    if n < 10 then [Nat.digitChar n]
    else natDigitsAux fuel (n / 10) ++ [Nat.digitChar (n % 10)]

/-- The decimal digits of `n`, most significant first. -/
def natDigits (n : Nat) : List Char := natDigitsAux (n + 1) n

/-- The numeric value a decimal digit string denotes (used to show the
rendering injective). -/
def valDigits (cs : List Char) : Nat :=
  cs.foldl (fun a c => a * 10 + (c.toNat - 48)) 0

/-- The JavaScript coercion of the (nonnegative integral) counter to a
string inside a template literal: its decimal notation. -/
def natToString (n : Nat) : String := ⟨natDigits n⟩

/-- The group id minted by `GitViewContribution.getGroup`
(git-view-contribution.ts:335): the template literal
`` `${label}_${GitViewContribution.SCM_GROUP_ID ++}` `` at counter value
`n`. -/
def mkGroupId (label : String) (n : Nat) : String :=
  label ++ "_" ++ natToString n

/-- `ScmResource` as built by `GitViewContribution.getGroup`
(git-view-contribution.ts:315-328): source URI plus derived decorations.
The bound `open` closure is the diff-URI resolution modelled separately by
`getUriToOpen`.  `sourceUri` keeps the raw change URI string; its
stringification (`sourceUri.toString()`) is modelled as that string. -/
structure ScmResource where
  sourceUri : String
  icon : String
  letter : String
  color : String
deriving DecidableEq

/-- `ScmResourceGroup` (§3): fixed label, never-hidden flag, allocator id
and the ordered resources.  The `provider` and `onDidChange` back-references
of the source carry no group state and are omitted. -/
structure ScmResourceGroup where
  label : String
  hideWhenEmpty : Bool
  id : String
  resources : List ScmResource
deriving DecidableEq

/-- `GitViewContribution.getColor` (git-view-contribution.ts:377-387). -/
def getColor (status : GitFileStatus) : String :=
  if status = GitFileStatus.New then "var(--theia-success-color0)"
  else if status = GitFileStatus.Deleted then "var(--theia-warn-color0)"
  else if status = GitFileStatus.Conflicted then "var(--theia-error-color0)"
  else "var(--theia-brand-color0)"

/-- The sort key of a resource inside `getGroup`
(git-view-contribution.ts:330-331):
`uri.toString().substring(uri.toString().lastIndexOf('/'))` — the suffix
from the last `'/'` on, or (as `substring` clamps the `-1` of a missing
`'/'` to `0`) the whole string. -/
def sortKey (s : String) : String :=
  if '/' ∈ s.data then ⟨'/' :: (s.data.reverse.takeWhile (· ≠ '/')).reverse⟩
  else s

/-- The comparator passed to `Array.prototype.sort` in `getGroup`, as the
boolean "does not compare greater" relation of the locale comparison `lc`
on the sort keys (a JavaScript comparator keeps `l` before `r` when its
result is nonpositive). -/
def resLe (lc : String → String → Ordering) (l r : ScmResource) : Bool :=
  decide (lc (sortKey l.sourceUri) (sortKey r.sourceUri) ≠ Ordering.gt)

/-- `scmResources.sort(sort)` (git-view-contribution.ts:338).
`Array.prototype.sort` is specified stable (ES2019); it is modelled as a
stable merge sort under the comparator's nonpositive relation. -/
def sortResources (lc : String → String → Ordering)
    (resources : List ScmResource) : List ScmResource :=
  resources.mergeSort (resLe lc)

/-- The per-change resource construction inside `getGroup`
(git-view-contribution.ts:315-328): resolve the icon through the label
provider (`getIcon`, an external collaborator returning a promise modelled
as `Except`), derive letter and color.  `toAbbreviation` lives outside the
excerpt and is a parameter. -/
def buildResource {ε : Type} (getIcon : String → Except ε String)
    (toAbbreviation : GitFileStatus → Bool → String)
    (change : GitFileChange) : Except ε ScmResource := do
  let icon ← getIcon change.uri
  pure { sourceUri := change.uri, icon
         letter := toAbbreviation change.status change.staged
         color := getColor change.status }

/-- `GitViewContribution.getGroup` (git-view-contribution.ts:314-340) with
the static counter `SCM_GROUP_ID` threaded explicitly: resolves every
resource (`Promise.all` rejects when any icon lookup rejects, modelled by
`mapM` in `Except`), sorts them, mints the id and increments the counter. -/
def getGroup {ε : Type} (getIcon : String → Except ε String)
    (toAbbreviation : GitFileStatus → Bool → String)
    (lc : String → String → Ordering)
    (label : String) (changes : List GitFileChange) (counter : Nat) :
    Except ε (ScmResourceGroup × Nat) := do
  let scmResources ← changes.mapM (buildResource getIcon toAbbreviation)
  pure ({ label
          hideWhenEmpty := false
          id := mkGroupId label counter
          resources := sortResources lc scmResources }, counter + 1)

/-- The mutable instance state of `GitViewContribution` the group build
reads and writes: the cached staged and merge buckets
(git-view-contribution.ts:192-193) and the static group-id counter
(git-view-contribution.ts:186). -/
structure ContribState where
  stagedChanges : List GitFileChange
  mergeChanges : List GitFileChange
  scmGroupId : Nat
deriving DecidableEq

/-- The classification step of `getGroups` as guarded by the
`if (status)` truthiness check (git-view-contribution.ts:285-299): an
`undefined` status classifies nothing. -/
def statusBuckets (status : Option WorkingDirectoryStatus) :
    List GitFileChange × List GitFileChange × List GitFileChange :=
  match status with
  | some s => classifyChanges s.changes
  | none => ([], [], [])

/-- One `if (bucket.length > 0) { groups.push(await this.getGroup(...)) }`
step of `getGroups` (git-view-contribution.ts:300-308): at most one group
for the bucket, none when it is empty. -/
def optGroup {ε : Type} (getIcon : String → Except ε String)
    (toAbbreviation : GitFileStatus → Bool → String)
    (lc : String → String → Ordering)
    (label : String) (bucket : List GitFileChange) (c0 : Nat) :
    Except ε (List ScmResourceGroup × Nat) :=
  if bucket.length > 0 then do
    let (g, c) ← getGroup getIcon toAbbreviation lc label bucket c0
    pure ([g], c)
  else pure ([], c0)

/-- `GitViewContribution.getGroups` (git-view-contribution.ts:280-312):
classify the changes (an `undefined` status classifies nothing), build one
group per non-empty bucket in the fixed order staged, unstaged, merge, then
record the staged and merge buckets as the caches for later diff-URI
resolution.  A rejected icon lookup rejects the whole call before any state
is written. -/
def getGroups {ε : Type} (getIcon : String → Except ε String)
    (toAbbreviation : GitFileStatus → Bool → String)
    (lc : String → String → Ordering)
    (status : Option WorkingDirectoryStatus) (st : ContribState) :
    Except ε (List ScmResourceGroup × ContribState) := do
  let (stagedChanges, unstagedChanges, mergeChanges) := statusBuckets status
  let (groups1, c1) ← optGroup getIcon toAbbreviation lc "Staged changes" stagedChanges st.scmGroupId
  let (groups2, c2) ← optGroup getIcon toAbbreviation lc "Changes" unstagedChanges c1
  let (groups3, c3) ← optGroup getIcon toAbbreviation lc "Merged Changes" mergeChanges c2
  pure (groups1 ++ groups2 ++ groups3,
        { stagedChanges, mergeChanges, scmGroupId := c3 })

/-- `ScmCommand` as used for the status bar
(git-view-contribution.ts:263-267). -/
structure ScmCommand where
  id : String
  text : String
  command : String
deriving DecidableEq

/-- The observable state of one `ScmProviderImpl`
(git-view-contribution.ts:793-895): the stored `_groups` plus the firing
history of its two change emitters.  `resourceEvents` counts the payloadless
firings of `onDidChangeResourcesEmitter`; `statusBarCommandEvents` logs the
payloads fired on `onDidChangeStatusBarCommandsEmitter`. -/
structure ScmProviderState where
  _groups : List ScmResourceGroup
  resourceEvents : Nat
  statusBarCommandEvents : List (List ScmCommand)
deriving DecidableEq

namespace ScmProviderImpl

/-- The `groups` setter (git-view-contribution.ts:824-826): it assigns
`_groups` and nothing else. -/
def setGroups (s : ScmProviderState) (groups : List ScmResourceGroup) :
    ScmProviderState :=
  { s with _groups := groups }

/-- The `groups` getter (git-view-contribution.ts:820-822). -/
def groups (s : ScmProviderState) : List ScmResourceGroup := s._groups

/-- The `statusBarCommands` getter (git-view-contribution.ts:852-854): it
returns `undefined` unconditionally. -/
def statusBarCommands (_ : ScmProviderState) : Option (List ScmCommand) :=
  none

/-- `fireChangeStatusBarCommands` (git-view-contribution.ts:884-886): fires
the commands-changed emitter with the given list; stores nothing. -/
def fireChangeStatusBarCommands (s : ScmProviderState)
    (commands : List ScmCommand) : ScmProviderState :=
  { s with statusBarCommandEvents := s.statusBarCommandEvents ++ [commands] }

/-- `fireChangeResources` (git-view-contribution.ts:888-890): fires the
resources-changed emitter with no payload. -/
def fireChangeResources (s : ScmProviderState) : ScmProviderState :=
  { s with resourceEvents := s.resourceEvents + 1 }

end ScmProviderImpl

/-- The checkout status-bar command built by the `onGitEvent` handler
(git-view-contribution.ts:263-267). -/
def checkoutCommand (branch dirty : String) : ScmCommand :=
  { id := "git.checkout"
    text := "$(code-fork) " ++ branch ++ dirty
    command := "git.checkout" }

/-- The provider-refresh part of the `onGitEvent` handler
(git-view-contribution.ts:261-269): `getGroups(status, provider).then(...)`
with no rejection handler, so when the group build rejects the callback
never runs and neither the contribution state nor the provider state
changes; when it resolves, the handler stores the groups, fires the
status-bar commands and fires the resources-changed notification. -/
def onGitEventRefresh {ε : Type} (getIcon : String → Except ε String)
    (toAbbreviation : GitFileStatus → Bool → String)
    (lc : String → String → Ordering)
    (status : WorkingDirectoryStatus) (st : ContribState)
    (ps : ScmProviderState) : ContribState × ScmProviderState :=
  let branch := branchLabel status
  let dirty := statusDirty status.changes
  match getGroups getIcon toAbbreviation lc (some status) st with
  | .error _ => (st, ps)
  | .ok (groups, st') =>
    let ps := ScmProviderImpl.setGroups ps groups
    let ps := ScmProviderImpl.fireChangeStatusBarCommands ps [checkoutCommand branch dirty]
    let ps := ScmProviderImpl.fireChangeResources ps
    (st', ps)

/-- A sequence of `getGroup` calls within one process, threading the shared
`SCM_GROUP_ID` counter: each successful call appends its group and advances
the counter, a rejected call mints nothing. -/
def runGroups {ε : Type} (getIcon : String → Except ε String)
    (toAbbreviation : GitFileStatus → Bool → String)
    (lc : String → String → Ordering) :
    List (String × List GitFileChange) → Nat → List ScmResourceGroup × Nat
  | [], counter => ([], counter)
  | (label, changes) :: rest, counter =>
    match getGroup getIcon toAbbreviation lc label changes counter with
    | .ok (g, counter') =>
      let p := runGroups getIcon toAbbreviation lc rest counter'
      (g :: p.1, p.2)
    | .error _ => runGroups getIcon toAbbreviation lc rest counter

/-- `Repository` of the tracker: identified by its `localUri`. -/
structure Repository where
  localUri : String
deriving DecidableEq

/-- The repository set tracker's state
(git-view-contribution.ts:190-191, 414-433): the previously observed
repository list, the registered providers (by root URI), the SCM service's
registered repositories (by root URI), and the observable histories of
registrations and disposals. -/
structure TrackerState where
  dirtyRepositories : List Repository
  scmProviders : List String
  scmRepositories : List String
  registered : List Repository
  disposed : List String
deriving DecidableEq

/-- `GitViewContribution.registerScmProvider`
(git-view-contribution.ts:414-433) restricted to the tracked state: a new
provider for the repository's root URI is pushed and registered with the
SCM service. -/
def registerScmProvider (repo : Repository) (st : TrackerState) : TrackerState :=
  { st with
    scmProviders := st.scmProviders ++ [repo.localUri]
    scmRepositories := st.scmRepositories ++ [repo.localUri]
    registered := st.registered ++ [repo] }

/-- `GitViewContribution.checkNewOrRemovedRepositories`
(git-view-contribution.ts:390-412): `find` one repository present now but
absent before and register it; `find` one repository absent now but present
before, dispose its SCM repository and splice its provider out; finally
replace the observed list wholesale.  Disposal of the registered SCM
repository removes it from the SCM service's list (modelled from the spec,
§3: the hub is "disposed when the repository disappears from the tracked
set"). -/
def checkNewOrRemovedRepositories (allRepositories : List Repository)
    (st : TrackerState) : TrackerState :=
  let st1 :=
    match allRepositories.find? (fun repo =>
        st.dirtyRepositories.all fun dirtyRepo => dirtyRepo.localUri ≠ repo.localUri) with
    | some added => registerScmProvider added st
    | none => st
  let st2 :=
    match st.dirtyRepositories.find? (fun dirtyRepo =>
        allRepositories.all fun repo => repo.localUri ≠ dirtyRepo.localUri) with
    | some removed =>
      match st1.scmRepositories.find? (fun rootUri => rootUri == removed.localUri) with
      | some removedScmRepo =>
        { st1 with
          disposed := st1.disposed ++ [removedScmRepo]
          scmRepositories := st1.scmRepositories.erase removedScmRepo
          scmProviders := st1.scmProviders.erase removedScmRepo }
      | none => st1
    | none => st1
  { st2 with dirtyRepositories := allRepositories }

/-- A JavaScript thrown value as the amend-commit handler inspects it:
whether it is an `Error` instance, and its message. -/
structure JsError where
  isError : Bool
  message : String
deriving DecidableEq

/-- The `COMMIT_AMEND` command handler's error handling
(git-view-contribution.ts:516-532): collect the amend commit message
(`collect`, the awaited `commitMessageForAmend()`), commit on success; on a
throw, swallow it exactly when it is an `Error` whose message is
`'User abort.'`, otherwise rethrow.  The returned list logs the commits
performed (each as its message). -/
def commitAmendHandler (collect : Except JsError String) :
    Except JsError (List String) :=
  match collect with
  | .ok message => .ok [message]
  | .error e =>
    if e.isError && e.message == "User abort." then .ok []
    else .error e

/-- A concrete sample change (a staged modification) for evaluating the
operations on explicit inputs. -/
def sampleChange : GitFileChange :=
  { uri := "file:///r/a.txt", status := .Modified, staged := true }

/-- A working-directory status carrying only `sampleChange`. -/
def sampleStatus : WorkingDirectoryStatus := { changes := [sampleChange] }

/-- The resource built from `sampleChange` by a resolver answering `"i"`
and an abbreviation answering `"M"`. -/
def sampleResource : ScmResource :=
  { sourceUri := "file:///r/a.txt", icon := "i", letter := "M",
    color := getColor .Modified }

/-- The staged group built from `sampleStatus` at counter `0`. -/
def sampleStagedGroup : ScmResourceGroup :=
  { label := "Staged changes", hideWhenEmpty := false,
    id := mkGroupId "Staged changes" 0, resources := [sampleResource] }

/-! ## Theorems -/

theorem hasConflicts_iff (changes : List GitFileChange) :
    hasConflicts changes = true ↔ ∃ c ∈ changes, c.status = GitFileStatus.Conflicted := by
  simp [hasConflicts, List.any_eq_true]

theorem allStaged_iff (changes : List GitFileChange) :
    allStaged changes = true ↔ ∀ c ∈ changes, c.staged = true := by
  simp [allStaged, List.any_eq_true]

/-- C10: for every status event, the dirty marker appended to the branch
name in the status-bar checkout command is `''` for an empty change list,
`'!'` when some change is Conflicted, `'+'` when no change is Conflicted
and every change is staged, and `'*'` otherwise. -/
theorem statusDirty_cases (changes : List GitFileChange) :
    statusDirty changes =
      if changes = [] then ""
      else if ∃ c ∈ changes, c.status = GitFileStatus.Conflicted then "!"
      else if ∀ c ∈ changes, c.staged = true then "+"
      else "*" := by
  rcases changes with _ | ⟨a, as⟩
  · simp [statusDirty]
  · rw [if_neg (by simp)]
    simp only [← hasConflicts_iff, ← allStaged_iff]
    cases h1 : hasConflicts (a :: as) <;> cases h2 : allStaged (a :: as) <;>
      simp [statusDirty, h1, h2]

/-- C9: in the amend-commit handler, a successful message collection leads
to exactly one amend commit with that message; a thrown value is swallowed
(with no commit performed) exactly when it is an `Error` whose message is
the sentinel `'User abort.'`, and every other thrown value is rethrown. -/
theorem commitAmendHandler_cases (e : JsError) (m : String) :
    commitAmendHandler (Except.ok m) = Except.ok [m] ∧
    commitAmendHandler (Except.error e) =
      (if e.isError = true ∧ e.message = "User abort." then Except.ok []
       else Except.error e) := by
  refine ⟨rfl, ?_⟩
  by_cases h : e.isError = true ∧ e.message = "User abort."
  · have hb : (e.isError && (e.message == "User abort.")) = true := by
      simp [h.1, h.2]
    simp [commitAmendHandler, hb, h]
  · have hb : (e.isError && (e.message == "User abort.")) = false := by
      rw [Bool.eq_false_iff]
      intro hcon
      exact h (by simpa [Bool.and_eq_true] using hcon)
    simp [commitAmendHandler, hb, h]

/-- C7, counterexample: on the provider hub, assigning the `groups`
property fires no resources-changed notification (the event count stays
`0`), and after `fireChangeStatusBarCommands` a subscriber reading the
hub's `statusBarCommands` still observes `undefined`, not the list just
fired — refuting the claimed setter/getter behaviour at a concrete
input. -/
theorem scmProvider_claim_counterexample :
    (ScmProviderImpl.setGroups ⟨[], 0, []⟩
        [{ label := "Staged changes", hideWhenEmpty := false,
           id := "Staged changes_0", resources := [] }]).resourceEvents = 0 ∧
    ScmProviderImpl.statusBarCommands
      (ScmProviderImpl.fireChangeStatusBarCommands ⟨[], 0, []⟩
        [{ id := "git.checkout", text := "b", command := "git.checkout" }]) = none :=
  ⟨rfl, rfl⟩

/-- C7, amended: assigning `groups` replaces the stored groups wholesale
and fires nothing; `fireChangeResources` fires the payloadless
resources-changed notification; `fireChangeStatusBarCommands` fires the
commands-changed notification carrying the new list without storing it,
and the `statusBarCommands` getter returns `undefined` unconditionally.
After the groups assignment a reader of the hub observes the new groups. -/
theorem scmProvider_state_transitions (s : ScmProviderState)
    (gs : List ScmResourceGroup) (cmds : List ScmCommand) :
    ScmProviderImpl.groups (ScmProviderImpl.setGroups s gs) = gs ∧
    (ScmProviderImpl.setGroups s gs).resourceEvents = s.resourceEvents ∧
    (ScmProviderImpl.setGroups s gs).statusBarCommandEvents = s.statusBarCommandEvents ∧
    (ScmProviderImpl.fireChangeResources s).resourceEvents = s.resourceEvents + 1 ∧
    (ScmProviderImpl.fireChangeResources s)._groups = s._groups ∧
    (ScmProviderImpl.fireChangeStatusBarCommands s cmds).statusBarCommandEvents =
      s.statusBarCommandEvents ++ [cmds] ∧
    (ScmProviderImpl.fireChangeStatusBarCommands s cmds)._groups = s._groups ∧
    ScmProviderImpl.statusBarCommands (ScmProviderImpl.fireChangeStatusBarCommands s cmds) = none :=
  ⟨rfl, rfl, rfl, rfl, rfl, rfl, rfl, rfl⟩

theorem checkNew_of_find?_none (allRepositories : List Repository) (s : TrackerState)
    (h1 : allRepositories.find? (fun repo =>
        s.dirtyRepositories.all fun dirtyRepo => dirtyRepo.localUri ≠ repo.localUri) = none)
    (h2 : s.dirtyRepositories.find? (fun dirtyRepo =>
        allRepositories.all fun repo => repo.localUri ≠ dirtyRepo.localUri) = none) :
    checkNewOrRemovedRepositories allRepositories s =
      { s with dirtyRepositories := allRepositories } := by
  unfold checkNewOrRemovedRepositories
  rw [h1, h2]

theorem find?_self_ne_none (allRepositories : List Repository) :
    allRepositories.find? (fun x =>
      allRepositories.all fun y => y.localUri ≠ x.localUri) = none := by
  apply List.find?_eq_none.mpr
  intro x hx
  simp only [List.all_eq_true, decide_eq_true_eq]
  intro hall
  exact hall x hx rfl

theorem checkNew_idem_aux (allRepositories : List Repository) (K : TrackerState)
    (hd : K.dirtyRepositories = allRepositories) :
    checkNewOrRemovedRepositories allRepositories K = K := by
  have e1 : allRepositories.find? (fun repo =>
      K.dirtyRepositories.all fun dirtyRepo => dirtyRepo.localUri ≠ repo.localUri) = none := by
    rw [hd]; exact find?_self_ne_none allRepositories
  have e2 : K.dirtyRepositories.find? (fun dirtyRepo =>
      allRepositories.all fun repo => repo.localUri ≠ dirtyRepo.localUri) = none := by
    rw [hd]; exact find?_self_ne_none allRepositories
  rw [checkNew_of_find?_none allRepositories K e1 e2]
  rcases K with ⟨d, p, sr, reg, disp⟩
  dsimp only at hd
  subst hd
  rfl

/-- C8: one invocation of `checkNewOrRemovedRepositories` registers at most
one newly added repository and disposes at most one removed repository
(`find` yields at most one of each), and it is idempotent: with the
authoritative repository list unchanged, a second invocation leaves the
tracker state — registrations and disposals included — exactly as the
first left it. -/
theorem checkNewOrRemovedRepositories_bounds_idem
    (allRepositories : List Repository) (st : TrackerState) :
    (checkNewOrRemovedRepositories allRepositories st).registered.length ≤
      st.registered.length + 1 ∧
    (checkNewOrRemovedRepositories allRepositories st).disposed.length ≤
      st.disposed.length + 1 ∧
    checkNewOrRemovedRepositories allRepositories
        (checkNewOrRemovedRepositories allRepositories st) =
      checkNewOrRemovedRepositories allRepositories st := by
  refine ⟨?_, ?_, checkNew_idem_aux allRepositories _ rfl⟩
  · unfold checkNewOrRemovedRepositories registerScmProvider
    dsimp only
    split <;> split <;> (try split) <;> simp
  · unfold checkNewOrRemovedRepositories registerScmProvider
    dsimp only
    split <;> split <;> (try split) <;> simp

theorem any_eq_find?_isSome (l : List GitFileChange) (p : GitFileChange → Bool) :
    l.any p = (l.find? p).isSome := by
  rw [Bool.eq_iff_iff]
  simp [List.find?_isSome, List.any_eq_true]

/-- C1: for every change, `getUriToOpen` returns exactly the URI prescribed
by the spec's seven-case decision table over (status, staged, membership in
the cached staged set, membership in the cached merge set), evaluated in
the spec's priority order. -/
theorem getUriToOpen_matches_table (stagedSet mergeSet : List GitFileChange)
    (change : GitFileChange) :
    getUriToOpen stagedSet mergeSet change = uriDecisionTable stagedSet mergeSet change := by
  rcases change with ⟨uri, status, staged⟩
  cases status <;> cases staged <;>
    cases h1 : (stagedSet.find? fun c => c.uri == uri).isSome <;>
    cases h2 : (mergeSet.find? fun c => c.uri == uri).isSome <;>
    simp [getUriToOpen, uriDecisionTable, any_eq_find?_isSome, h1, h2]

theorem conflicted_name_ne (s : GitFileStatus) :
    (GitFileStatus.name .Conflicted ≠ GitFileStatus.name s) ↔ s ≠ .Conflicted := by
  cases s <;> decide

theorem classifyChanges_filters (changes : List GitFileChange) :
    (classifyChanges changes).1 =
      changes.filter (fun c => !(c.status == GitFileStatus.Conflicted) && c.staged) ∧
    (classifyChanges changes).2.1 =
      changes.filter (fun c => !(c.status == GitFileStatus.Conflicted) && !c.staged) ∧
    (classifyChanges changes).2.2 =
      changes.filter (fun c => (c.status == GitFileStatus.Conflicted) && !c.staged) := by
  induction changes with
  | nil => exact ⟨rfl, rfl, rfl⟩
  | cons a as ih =>
    obtain ⟨ih1, ih2, ih3⟩ := ih
    by_cases hc : a.status = GitFileStatus.Conflicted <;> cases hst : a.staged <;>
      simp [classifyChanges, conflicted_name_ne, hc, hst, ih1, ih2, ih3, List.filter_cons]

/-- C2: the classifier inside `getGroups` partitions any change list in one
pass preserving input order: each bucket is the order-preserving filter of
its routing predicate, no change lands in two buckets, a conflicted+staged
change lands in none, and an empty or `undefined` status yields three empty
buckets and zero groups. -/
theorem classifyChanges_partition (changes : List GitFileChange) :
    (classifyChanges changes).1 =
      changes.filter (fun c => !(c.status == GitFileStatus.Conflicted) && c.staged) ∧
    (classifyChanges changes).2.1 =
      changes.filter (fun c => !(c.status == GitFileStatus.Conflicted) && !c.staged) ∧
    (classifyChanges changes).2.2 =
      changes.filter (fun c => (c.status == GitFileStatus.Conflicted) && !c.staged) ∧
    (∀ c, ¬(c ∈ (classifyChanges changes).1 ∧ c ∈ (classifyChanges changes).2.1)) ∧
    (∀ c, ¬(c ∈ (classifyChanges changes).1 ∧ c ∈ (classifyChanges changes).2.2)) ∧
    (∀ c, ¬(c ∈ (classifyChanges changes).2.1 ∧ c ∈ (classifyChanges changes).2.2)) ∧
    (∀ c ∈ changes, c.status = GitFileStatus.Conflicted → c.staged = true →
      c ∉ (classifyChanges changes).1 ∧ c ∉ (classifyChanges changes).2.1 ∧
        c ∉ (classifyChanges changes).2.2) ∧
    classifyChanges [] = ([], [], []) ∧
    (∀ (ε : Type) (getIcon : String → Except ε String)
        (toAbbreviation : GitFileStatus → Bool → String)
        (lc : String → String → Ordering) (st : ContribState),
      getGroups getIcon toAbbreviation lc none st =
        .ok ([], { stagedChanges := [], mergeChanges := [],
                   scmGroupId := st.scmGroupId })) := by
  obtain ⟨h1, h2, h3⟩ := classifyChanges_filters changes
  refine ⟨h1, h2, h3, ?_, ?_, ?_, ?_, rfl, fun ε getIcon toAbbreviation lc st => rfl⟩
  · rintro c ⟨hm1, hm2⟩
    rw [h1] at hm1; rw [h2] at hm2
    simp only [List.mem_filter, Bool.and_eq_true] at hm1 hm2
    simp [hm1.2.2] at hm2
  · rintro c ⟨hm1, hm2⟩
    rw [h1] at hm1; rw [h3] at hm2
    simp only [List.mem_filter, Bool.and_eq_true, beq_iff_eq] at hm1 hm2
    simp [hm2.2.1] at hm1
  · rintro c ⟨hm1, hm2⟩
    rw [h2] at hm1; rw [h3] at hm2
    simp only [List.mem_filter, Bool.and_eq_true, beq_iff_eq] at hm1 hm2
    simp [hm2.2.1] at hm1
  · intro c _ hconf hstaged
    refine ⟨?_, ?_, ?_⟩
    · rw [h1]; simp [List.mem_filter, hconf, hstaged]
    · rw [h2]; simp [List.mem_filter, hconf, hstaged]
    · rw [h3]; simp [List.mem_filter, hconf, hstaged]

theorem natDigitsAux_irrel : ∀ (f1 f2 n : Nat), n < f1 → n < f2 →
    natDigitsAux f1 n = natDigitsAux f2 n := by
  intro f1
  induction f1 with
  | zero => intro f2 n h1 h2; omega
  | succ fs ih =>
    intro f2 n h1 h2
    cases f2 with
    | zero => omega
    | succ fs2 =>
      simp only [natDigitsAux]
      by_cases h10 : n < 10
      · simp [h10]
      · have hdiv : n / 10 < n := Nat.div_lt_self (by omega) (by omega)
        rw [if_neg h10, if_neg h10, ih fs2 (n / 10) (by omega) (by omega)]

theorem natDigits_lt10 (n : Nat) (h : n < 10) : natDigits n = [Nat.digitChar n] := by
  simp [natDigits, natDigitsAux, h]

theorem natDigits_ge10 (n : Nat) (h : ¬ n < 10) :
    natDigits n = natDigits (n / 10) ++ [Nat.digitChar (n % 10)] := by
  have hdiv : n / 10 < n := Nat.div_lt_self (by omega) (by omega)
  show natDigitsAux (n + 1) n = _
  simp only [natDigitsAux, if_neg h]
  rw [natDigitsAux_irrel n (n / 10 + 1) (n / 10) (by omega) (by omega)]
  rfl

theorem digitChar_isDigit {n : Nat} (h : n < 10) : (Nat.digitChar n).isDigit = true := by
  interval_cases n <;> decide

theorem digitChar_toNat_sub {n : Nat} (h : n < 10) : (Nat.digitChar n).toNat - 48 = n := by
  interval_cases n <;> decide

theorem valDigits_append_one (cs : List Char) (c : Char) :
    valDigits (cs ++ [c]) = valDigits cs * 10 + (c.toNat - 48) := by
  simp [valDigits, List.foldl_append]

theorem valDigits_natDigits (n : Nat) : valDigits (natDigits n) = n := by
  induction n using Nat.strong_induction_on with
  | _ n ih =>
    by_cases h : n < 10
    · rw [natDigits_lt10 n h]
      simpa [valDigits] using digitChar_toNat_sub h
    · rw [natDigits_ge10 n h, valDigits_append_one,
        ih (n / 10) (Nat.div_lt_self (by omega) (by omega)),
        digitChar_toNat_sub (Nat.mod_lt n (by omega))]
      omega

theorem natDigits_inj {m n : Nat} (h : natDigits m = natDigits n) : m = n := by
  have := congrArg valDigits h
  rwa [valDigits_natDigits, valDigits_natDigits] at this

theorem natDigits_all_digit (n : Nat) : ∀ c ∈ natDigits n, c.isDigit = true := by
  induction n using Nat.strong_induction_on with
  | _ n ih =>
    intro c hc
    by_cases h : n < 10
    · rw [natDigits_lt10 n h] at hc
      simp at hc
      subst hc
      exact digitChar_isDigit h
    · rw [natDigits_ge10 n h] at hc
      rcases List.mem_append.mp hc with h1 | h2
      · exact ih (n / 10) (Nat.div_lt_self (by omega) (by omega)) c h1
      · simp at h2
        subst h2
        exact digitChar_isDigit (Nat.mod_lt n (by omega))

theorem takeWhile_append_of_all (p : Char → Bool) :
    ∀ (l1 l2 : List Char), (∀ c ∈ l1, p c = true) →
      (l1 ++ l2).takeWhile p = l1 ++ l2.takeWhile p := by
  intro l1 l2 h
  induction l1 with
  | nil => simp
  | cons a as ih =>
    simp only [List.cons_append, List.takeWhile_cons]
    rw [if_pos (h a (by simp))]
    simp [ih fun c hc => h c (by simp [hc])]

theorem mkGroupId_data (label : String) (n : Nat) :
    (mkGroupId label n).data = label.data ++ '_' :: natDigits n := by
  simp [mkGroupId, natToString, String.data_append]

theorem mkGroupId_counter_inj {l1 l2 : String} {n1 n2 : Nat}
    (h : mkGroupId l1 n1 = mkGroupId l2 n2) : n1 = n2 := by
  have hd : l1.data ++ '_' :: natDigits n1 = l2.data ++ '_' :: natDigits n2 := by
    have := congrArg String.data h
    rwa [mkGroupId_data, mkGroupId_data] at this
  have hr := congrArg List.reverse hd
  simp only [List.reverse_append, List.reverse_cons, List.append_assoc,
    List.singleton_append] at hr
  have ht := congrArg (List.takeWhile Char.isDigit) hr
  rw [takeWhile_append_of_all Char.isDigit _ _
        (fun c hc => natDigits_all_digit n1 c (List.mem_reverse.mp hc)),
      takeWhile_append_of_all Char.isDigit _ _
        (fun c hc => natDigits_all_digit n2 c (List.mem_reverse.mp hc))] at ht
  have hund : Char.isDigit '_' = false := by decide
  simp only [List.takeWhile_cons, hund] at ht
  simp at ht
  exact natDigits_inj ht

theorem except_bind_ok_inv {ε α β : Type} (m : Except ε α) (f : α → Except ε β) (b : β)
    (h : (m >>= f) = Except.ok b) : ∃ a, m = Except.ok a ∧ f a = Except.ok b := by
  cases m with
  | error e => simp [Bind.bind, Except.bind] at h
  | ok a => exact ⟨a, rfl, by simpa [Bind.bind, Except.bind] using h⟩

theorem getGroup_ok_elim {ε : Type} (getIcon : String → Except ε String)
    (toAbbreviation : GitFileStatus → Bool → String) (lc : String → String → Ordering)
    (label : String) (changes : List GitFileChange) (counter : Nat)
    (g : ScmResourceGroup) (c' : Nat)
    (h : getGroup getIcon toAbbreviation lc label changes counter = .ok (g, c')) :
    g.label = label ∧ g.id = mkGroupId label counter ∧ c' = counter + 1 ∧
    ∃ ws, changes.mapM (buildResource getIcon toAbbreviation) = .ok ws ∧
      g.resources = sortResources lc ws := by
  obtain ⟨ws, hm, hp⟩ := except_bind_ok_inv _ _ _ h
  cases hp
  exact ⟨rfl, rfl, rfl, ws, hm, rfl⟩

theorem runGroups_mem_id {ε : Type} (getIcon : String → Except ε String)
    (toAbbreviation : GitFileStatus → Bool → String) (lc : String → String → Ordering) :
    ∀ (calls : List (String × List GitFileChange)) (counter : Nat) (g : ScmResourceGroup),
      g ∈ (runGroups getIcon toAbbreviation lc calls counter).1 →
      ∃ l k, g.id = mkGroupId l k ∧ counter ≤ k := by
  intro calls
  induction calls with
  | nil => intro counter g hg; simp [runGroups] at hg
  | cons call rest ih =>
    rcases call with ⟨label, changes⟩
    intro counter g hg
    simp only [runGroups] at hg
    cases hget : getGroup getIcon toAbbreviation lc label changes counter with
    | error e =>
      rw [hget] at hg
      exact ih counter g hg
    | ok gc =>
      rcases gc with ⟨g0, c0⟩
      obtain ⟨-, hid, hc, -⟩ :=
        getGroup_ok_elim getIcon toAbbreviation lc label changes counter g0 c0 hget
      subst hc
      rw [hget] at hg
      simp only [List.mem_cons] at hg
      rcases hg with rfl | hrest
      · exact ⟨label, counter, hid, Nat.le_refl _⟩
      · obtain ⟨l, k, hid', hk⟩ := ih (counter + 1) g hrest
        exact ⟨l, k, hid', by omega⟩

/-- C5: across any sequence of `getGroup` calls threading the shared
`SCM_GROUP_ID` counter, the minted group ids are pairwise distinct — even
when labels and resource contents coincide — because the counter strictly
increases on every group creation and the id determines the counter value
it was minted at. -/
theorem runGroups_ids_nodup {ε : Type} (getIcon : String → Except ε String)
    (toAbbreviation : GitFileStatus → Bool → String) (lc : String → String → Ordering)
    (calls : List (String × List GitFileChange)) (counter : Nat) :
    ((runGroups getIcon toAbbreviation lc calls counter).1.map (fun g => g.id)).Nodup := by
  induction calls generalizing counter with
  | nil => simp [runGroups]
  | cons call rest ih =>
    rcases call with ⟨label, changes⟩
    simp only [runGroups]
    cases hget : getGroup getIcon toAbbreviation lc label changes counter with
    | error e => exact ih counter
    | ok gc =>
      rcases gc with ⟨g0, c0⟩
      obtain ⟨-, hid, hc, -⟩ :=
        getGroup_ok_elim getIcon toAbbreviation lc label changes counter g0 c0 hget
      subst hc
      simp only [List.map_cons, List.nodup_cons, List.mem_map]
      refine ⟨?_, ih (counter + 1)⟩
      rintro ⟨g, hgmem, hgid⟩
      obtain ⟨l, k, hid', hk⟩ :=
        runGroups_mem_id getIcon toAbbreviation lc rest (counter + 1) g hgmem
      have : k = counter := mkGroupId_counter_inj (by rw [← hid', hgid, hid])
      omega

/-- C4: every group built by `getGroup` carries exactly the resources built
from its bucket, reordered into a sequence that is sorted by the final path
segment of each resource's URI under the locale comparison and stable:
resources whose keys compare "not greater" in bucket order keep that
order. -/
theorem getGroup_resources_sorted {ε : Type} (getIcon : String → Except ε String)
    (toAbbreviation : GitFileStatus → Bool → String) (lc : String → String → Ordering)
    (label : String) (changes : List GitFileChange) (counter : Nat)
    (g : ScmResourceGroup) (c' : Nat)
    (htrans : ∀ a b c : String, lc a b ≠ .gt → lc b c ≠ .gt → lc a c ≠ .gt)
    (htotal : ∀ a b : String, lc a b ≠ .gt ∨ lc b a ≠ .gt)
    (h : getGroup getIcon toAbbreviation lc label changes counter = .ok (g, c')) :
    ∃ ws, changes.mapM (buildResource getIcon toAbbreviation) = .ok ws ∧
      g.resources.Perm ws ∧
      g.resources.Pairwise (fun l r => resLe lc l r = true) ∧
      (∀ a b, [a, b].Sublist ws → resLe lc a b = true →
        [a, b].Sublist g.resources) := by
  have transB : ∀ a b c : ScmResource, resLe lc a b → resLe lc b c → resLe lc a c := by
    intro a b c h1 h2
    simp only [resLe, decide_eq_true_eq] at h1 h2 ⊢
    exact htrans _ _ _ h1 h2
  have totalB : ∀ a b : ScmResource, (resLe lc a b || resLe lc b a) = true := by
    intro a b
    simp only [resLe, Bool.or_eq_true, decide_eq_true_eq]
    exact htotal _ _
  obtain ⟨-, -, -, ws, hm, hres⟩ :=
    getGroup_ok_elim getIcon toAbbreviation lc label changes counter g c' h
  refine ⟨ws, hm, ?_, ?_, ?_⟩
  · rw [hres]
    exact List.mergeSort_perm ws (resLe lc)
  · rw [hres]
    exact List.sorted_mergeSort transB totalB ws
  · intro a b hsub hab
    rw [hres]
    exact List.pair_sublist_mergeSort transB totalB hab hsub

unseal List.merge List.mergeSort in
theorem getGroup_resources_sorted_witness :
    ∃ ws,
      [({ uri := "file:///r/a.txt", status := GitFileStatus.Modified, staged := true } :
          GitFileChange)].mapM
          (buildResource (fun _ => (Except.ok "i" : Except String String))
            (fun _ _ => "M")) = Except.ok ws ∧
      ({ label := "Changes", hideWhenEmpty := false, id := mkGroupId "Changes" 0,
         resources := [{ sourceUri := "file:///r/a.txt", icon := "i", letter := "M",
                         color := getColor GitFileStatus.Modified }] } :
          ScmResourceGroup).resources.Perm ws ∧
      ({ label := "Changes", hideWhenEmpty := false, id := mkGroupId "Changes" 0,
         resources := [{ sourceUri := "file:///r/a.txt", icon := "i", letter := "M",
                         color := getColor GitFileStatus.Modified }] } :
          ScmResourceGroup).resources.Pairwise
        (fun l r => resLe (fun _ _ => Ordering.eq) l r = true) ∧
      (∀ a b, [a, b].Sublist ws → resLe (fun _ _ => Ordering.eq) a b = true →
        [a, b].Sublist
          ({ label := "Changes", hideWhenEmpty := false, id := mkGroupId "Changes" 0,
             resources := [{ sourceUri := "file:///r/a.txt", icon := "i", letter := "M",
                             color := getColor GitFileStatus.Modified }] } :
              ScmResourceGroup).resources) :=
  getGroup_resources_sorted (fun _ => Except.ok "i") (fun _ _ => "M")
    (fun _ _ => Ordering.eq) "Changes"
    [{ uri := "file:///r/a.txt", status := GitFileStatus.Modified, staged := true }] 0
    { label := "Changes", hideWhenEmpty := false, id := mkGroupId "Changes" 0,
      resources := [{ sourceUri := "file:///r/a.txt", icon := "i", letter := "M",
                      color := getColor GitFileStatus.Modified }] } 1
    (fun _ _ _ h _ => h) (fun _ _ => Or.inl nofun) rfl

theorem optGroup_labels {ε : Type} (getIcon : String → Except ε String)
    (toAbbreviation : GitFileStatus → Bool → String) (lc : String → String → Ordering)
    (label : String) (bucket : List GitFileChange) (c0 : Nat)
    (a : List ScmResourceGroup × Nat)
    (h : optGroup getIcon toAbbreviation lc label bucket c0 = Except.ok a) :
    a.1.map (fun g => g.label) = if bucket.length > 0 then [label] else [] := by
  unfold optGroup at h
  by_cases hb : bucket.length > 0
  · rw [if_pos hb] at h
    rw [if_pos hb]
    obtain ⟨gc, hg, hp⟩ := except_bind_ok_inv _ _ _ h
    rcases gc with ⟨g, c⟩
    cases hp
    obtain ⟨hl, -, -, -⟩ :=
      getGroup_ok_elim getIcon toAbbreviation lc label bucket c0 g c hg
    simp [hl]
  · rw [if_neg hb] at h
    rw [if_neg hb]
    cases h
    rfl

/-- C3: whenever `getGroups` succeeds, it produces exactly one group per
non-empty bucket and none for an empty bucket, in the fixed order
[staged, unstaged, merge] with the fixed labels `'Staged changes'`,
`'Changes'`, `'Merged Changes'`. -/
theorem getGroups_labels {ε : Type} (getIcon : String → Except ε String)
    (toAbbreviation : GitFileStatus → Bool → String) (lc : String → String → Ordering)
    (status : Option WorkingDirectoryStatus) (st : ContribState)
    (groups : List ScmResourceGroup) (st' : ContribState)
    (h : getGroups getIcon toAbbreviation lc status st = .ok (groups, st')) :
    groups.map (fun g => g.label) =
      (if (statusBuckets status).1.length > 0 then ["Staged changes"] else []) ++
      (if (statusBuckets status).2.1.length > 0 then ["Changes"] else []) ++
      (if (statusBuckets status).2.2.length > 0 then ["Merged Changes"] else []) := by
  unfold getGroups at h
  rcases hb : statusBuckets status with ⟨sc, uc, mc⟩
  rw [hb] at h
  simp only at h
  obtain ⟨a1, h1, h⟩ := except_bind_ok_inv _ _ _ h
  rcases a1 with ⟨gs1, c1⟩
  obtain ⟨a2, h2, h⟩ := except_bind_ok_inv _ _ _ h
  rcases a2 with ⟨gs2, c2⟩
  obtain ⟨a3, h3, h⟩ := except_bind_ok_inv _ _ _ h
  rcases a3 with ⟨gs3, c3⟩
  cases h
  dsimp only
  simp only [List.map_append]
  rw [optGroup_labels getIcon toAbbreviation lc "Staged changes" sc st.scmGroupId _ h1,
    optGroup_labels getIcon toAbbreviation lc "Changes" uc _ _ h2,
    optGroup_labels getIcon toAbbreviation lc "Merged Changes" mc _ _ h3]

unseal List.merge List.mergeSort in
theorem getGroups_labels_witness :
    ([sampleStagedGroup].map (fun g => g.label)) =
      (if (statusBuckets (some sampleStatus)).1.length > 0
        then ["Staged changes"] else []) ++
      (if (statusBuckets (some sampleStatus)).2.1.length > 0
        then ["Changes"] else []) ++
      (if (statusBuckets (some sampleStatus)).2.2.length > 0
        then ["Merged Changes"] else []) :=
  getGroups_labels (fun _ => (Except.ok "i" : Except String String)) (fun _ _ => "M")
    (fun _ _ => Ordering.eq) (some sampleStatus)
    { stagedChanges := [], mergeChanges := [], scmGroupId := 0 }
    [sampleStagedGroup]
    { stagedChanges := [sampleChange], mergeChanges := [], scmGroupId := 1 }
    rfl

theorem mapM_error_of_mem {ε : Type} (getIcon : String → Except ε String)
    (toAbbreviation : GitFileStatus → Bool → String) (c : GitFileChange)
    (changes : List GitFileChange) (e : ε)
    (hc : c ∈ changes) (hi : getIcon c.uri = .error e) :
    ∃ e', changes.mapM (buildResource getIcon toAbbreviation) = .error e' := by
  induction changes with
  | nil => cases hc
  | cons a as ih =>
    cases hb : buildResource getIcon toAbbreviation a with
    | error e' => exact ⟨e', by rw [List.mapM_cons, hb]; rfl⟩
    | ok r =>
      rcases List.mem_cons.mp hc with rfl | hmem
      · exfalso
        unfold buildResource at hb
        rw [hi] at hb
        simp [Bind.bind, Except.bind] at hb
      · obtain ⟨e', hmm⟩ := ih hmem
        exact ⟨e', by rw [List.mapM_cons, hb, hmm]; rfl⟩

theorem getGroup_error_of_mem {ε : Type} (getIcon : String → Except ε String)
    (toAbbreviation : GitFileStatus → Bool → String) (lc : String → String → Ordering)
    (label : String) (c : GitFileChange) (changes : List GitFileChange)
    (counter : Nat) (e : ε)
    (hc : c ∈ changes) (hi : getIcon c.uri = .error e) :
    ∃ e', getGroup getIcon toAbbreviation lc label changes counter = .error e' := by
  obtain ⟨e', hm⟩ := mapM_error_of_mem getIcon toAbbreviation c changes e hc hi
  exact ⟨e', by unfold getGroup; rw [hm]; rfl⟩

theorem optGroup_error_of_mem {ε : Type} (getIcon : String → Except ε String)
    (toAbbreviation : GitFileStatus → Bool → String) (lc : String → String → Ordering)
    (label : String) (c : GitFileChange) (bucket : List GitFileChange)
    (c0 : Nat) (e : ε)
    (hc : c ∈ bucket) (hi : getIcon c.uri = .error e) :
    ∃ e', optGroup getIcon toAbbreviation lc label bucket c0 = .error e' := by
  obtain ⟨e', hg⟩ := getGroup_error_of_mem getIcon toAbbreviation lc label c bucket c0 e hc hi
  refine ⟨e', ?_⟩
  unfold optGroup
  rw [if_pos (List.length_pos.mpr (List.ne_nil_of_mem hc)), hg]
  rfl

/-- C6: if the icon resolution for any single change in any bucket rejects,
the whole `getGroups` call rejects, and the refresh handler — which
installs no rejection handler — leaves the provider's stored groups, both
notification channels, and the cached staged and merge sets unchanged: no
partial or degraded group is ever published. -/
theorem getGroups_icon_failure {ε : Type} (getIcon : String → Except ε String)
    (toAbbreviation : GitFileStatus → Bool → String) (lc : String → String → Ordering)
    (status : WorkingDirectoryStatus) (st : ContribState) (ps : ScmProviderState)
    (c : GitFileChange) (e : ε)
    (hc : c ∈ (statusBuckets (some status)).1 ∨ c ∈ (statusBuckets (some status)).2.1 ∨
          c ∈ (statusBuckets (some status)).2.2)
    (hi : getIcon c.uri = .error e) :
    (∃ e', getGroups getIcon toAbbreviation lc (some status) st = .error e') ∧
    onGitEventRefresh getIcon toAbbreviation lc status st ps = (st, ps) := by
  have herr : ∃ e', getGroups getIcon toAbbreviation lc (some status) st = .error e' := by
    unfold getGroups
    rcases hb : statusBuckets (some status) with ⟨sc, uc, mc⟩
    rw [hb] at hc
    simp only
    rcases hc with hc | hc | hc
    · obtain ⟨e1, h1⟩ :=
        optGroup_error_of_mem getIcon toAbbreviation lc "Staged changes" c sc st.scmGroupId e hc hi
      exact ⟨e1, by rw [h1]; rfl⟩
    · cases h1 : optGroup getIcon toAbbreviation lc "Staged changes" sc st.scmGroupId with
      | error e1 => exact ⟨e1, rfl⟩
      | ok a =>
        rcases a with ⟨gs1, c1⟩
        obtain ⟨e2, h2⟩ :=
          optGroup_error_of_mem getIcon toAbbreviation lc "Changes" c uc c1 e hc hi
        refine ⟨e2, ?_⟩
        show (optGroup getIcon toAbbreviation lc "Changes" uc c1 >>= _) = Except.error e2
        rw [h2]
        rfl
    · cases h1 : optGroup getIcon toAbbreviation lc "Staged changes" sc st.scmGroupId with
      | error e1 => exact ⟨e1, rfl⟩
      | ok a =>
        rcases a with ⟨gs1, c1⟩
        cases h2 : optGroup getIcon toAbbreviation lc "Changes" uc c1 with
        | error e2 =>
          refine ⟨e2, ?_⟩
          show (optGroup getIcon toAbbreviation lc "Changes" uc c1 >>= _) = Except.error e2
          rw [h2]
          rfl
        | ok a2 =>
          rcases a2 with ⟨gs2, c2⟩
          obtain ⟨e3, h3⟩ :=
            optGroup_error_of_mem getIcon toAbbreviation lc "Merged Changes" c mc c2 e hc hi
          refine ⟨e3, ?_⟩
          show (optGroup getIcon toAbbreviation lc "Changes" uc c1 >>= _) = Except.error e3
          rw [h2]
          show (optGroup getIcon toAbbreviation lc "Merged Changes" mc c2 >>= _) = Except.error e3
          rw [h3]
          rfl
  refine ⟨herr, ?_⟩
  obtain ⟨e', hg⟩ := herr
  unfold onGitEventRefresh
  rw [hg]

theorem getGroups_icon_failure_witness :
    (∃ e', getGroups (fun _ => (Except.error "boom" : Except String String))
        (fun _ _ => "M") (fun _ _ => Ordering.eq) (some sampleStatus)
        { stagedChanges := [], mergeChanges := [], scmGroupId := 0 } =
        Except.error e') ∧
    onGitEventRefresh (fun _ => (Except.error "boom" : Except String String))
        (fun _ _ => "M") (fun _ _ => Ordering.eq) sampleStatus
        { stagedChanges := [], mergeChanges := [], scmGroupId := 0 }
        { _groups := [], resourceEvents := 0, statusBarCommandEvents := [] } =
      ({ stagedChanges := [], mergeChanges := [], scmGroupId := 0 },
       { _groups := [], resourceEvents := 0, statusBarCommandEvents := [] }) :=
  getGroups_icon_failure (fun _ => Except.error "boom") (fun _ _ => "M")
    (fun _ _ => Ordering.eq) sampleStatus
    { stagedChanges := [], mergeChanges := [], scmGroupId := 0 }
    { _groups := [], resourceEvents := 0, statusBarCommandEvents := [] }
    sampleChange "boom" (Or.inl (by decide)) rfl

end TheiaGit
